import Mathlib

/-!
Verification of the Pipfile → pyproject.toml converter (`src/convert.py`).

The development shallowly embeds the pure core of the converter:
* `strip_url_credentials` — credential-stripping URL normalisation, together
  with a model of the parts of CPython's `urllib.parse` (`urlparse`,
  `urlunparse`, and the `hostname`/`port` netloc accessors) that it uses;
* `dump_custom_version` — the version-spec renderer for structured specs;
* `convert_pipfile_to_pyproject` — the manifest mapper (the pure data
  transformation, with file reading/writing factored out);
* `transform_file` — the line-by-line table rewriter (on the list of lines).

Strings are modelled as `List Char` internally, with `String` wrappers where
convenient.  Python exceptions are modelled with `Except`/`Option`.
-/

namespace PipToUv

/-! ## List-of-characters helpers modelling Python string primitives -/

/-- `startsWithL pat cs` models Python's `cs.startswith(pat)`. -/
def startsWithL : List Char → List Char → Bool
  | [], _ => true
  | _ :: _, [] => false
  | p :: ps, c :: cs => p == c && startsWithL ps cs

/-- Split at the first occurrence of `c`: Python's `s.partition(c)` restricted
to the found case (`none` when `c` does not occur). -/
def partitionAt (c : Char) : List Char → Option (List Char × List Char)
  | [] => none
  | x :: xs =>
    if x = c then some ([], xs)
    else (partitionAt c xs).map fun p => (x :: p.1, p.2)

/-- Split at the last occurrence of `c`: Python's `s.rpartition(c)` restricted
to the found case. -/
def rpartitionAt (c : Char) (xs : List Char) : Option (List Char × List Char) :=
  (partitionAt c xs.reverse).map fun p => (p.2.reverse, p.1.reverse)

/-- Python whitespace for `str.strip` / `str.rstrip` (ASCII part). -/
def isPySpace (c : Char) : Bool :=
  c = ' ' || c = '\t' || c = '\n' || c = '\r' || c = '\x0b' || c = '\x0c'

/-- Python `s.rstrip()` on `List Char`. -/
def rstripL (cs : List Char) : List Char :=
  (cs.reverse.dropWhile isPySpace).reverse

/-- Python `s.strip()` on `List Char`. -/
def stripL (cs : List Char) : List Char :=
  rstripL (cs.dropWhile isPySpace)

/-! ## Decimal rendering and parsing (for URL ports) -/

/-- The character of a single decimal digit. -/
def digitChar (n : Nat) : Char := Char.ofNat (48 + n)

/-- Decimal rendering of a natural number, as Python's `f"{n}"` prints it. -/
def natToDigitsL (n : Nat) : List Char :=
  if _h : n < 10 then [digitChar n]
  else natToDigitsL (n / 10) ++ [digitChar (n % 10)]
decreasing_by exact Nat.div_lt_self (by omega) (by omega)

/-- Value of a decimal digit character, `none` for non-digits. -/
def digitVal? (c : Char) : Option Nat :=
  if '0' ≤ c ∧ c ≤ '9' then some (c.toNat - 48) else none

/-- Decimal value of a digit string, `none` unless the string is nonempty and
all ASCII digits — exactly CPython's `port.isdigit() and port.isascii()`
guard followed by `int(port)`. -/
def decimalToNat? (cs : List Char) : Option Nat :=
  if cs = [] then none
  else cs.foldl (fun acc c => acc.bind fun a => (digitVal? c).map fun d => 10 * a + d)
    (some 0)

/-- The ten decimal digit characters. -/
def digitList : List Char := ['0', '1', '2', '3', '4', '5', '6', '7', '8', '9']

/-! ## Model of `urllib.parse` (the fragment used by `strip_url_credentials`)

Modelled from CPython 3.11's `urllib.parse`: `urlsplit`/`urlparse`,
`urlunsplit`/`urlunparse`, and the `hostname`/`port` accessors of the result.
Divergences from CPython, none exercised by the theorems below: `str.lower`
is ASCII-only, `_checknetloc` (an NFKC check that is a no-op on ASCII
netlocs) is not modelled, and `_check_bracketed_host` (validation of
bracketed IPv6/IPvFuture hosts) is not modelled. -/

/-- `_WHATWG_C0_CONTROL_OR_SPACE`: C0 control characters and the space. -/
def isC0OrSpace (c : Char) : Bool := c.toNat ≤ 32

/-- `_UNSAFE_URL_BYTES_TO_REMOVE`: tab, CR and LF. -/
def isUnsafeUrlByte (c : Char) : Bool := c = '\t' || c = '\r' || c = '\n'

/-- CPython `scheme_chars`: letters, digits, and `+-.`. -/
def scheme_chars : List Char :=
  "abcdefghijklmnopqrstuvwxyzABCDEFGHIJKLMNOPQRSTUVWXYZ0123456789+-.".data

def schemeChars (c : Char) : Bool := scheme_chars.contains c

def lowerL (cs : List Char) : List Char := cs.map Char.toLower

/-- Result of `urlsplit`: `(scheme, netloc, path, query, fragment)`; absent
components are the empty string, as in CPython. -/
structure SplitResult where
  scheme : List Char
  netloc : List Char
  path : List Char
  query : List Char
  fragment : List Char
deriving Repr, DecidableEq

/-- The scheme-splitting step of `urlsplit`: a scheme is recognised before the
first `:` when the part before it is nonempty, begins with a letter and
consists of `scheme_chars`; it is lower-cased. -/
def splitScheme (cs : List Char) : List Char × List Char :=
  match partitionAt ':' cs with
  | none => ([], cs)
  | some (before, after) =>
    match before with
    | [] => ([], cs)
    | c0 :: rest0 =>
      if c0.isAlpha && (c0 :: rest0).all schemeChars then (lowerL (c0 :: rest0), after)
      else ([], cs)

/-- Delimiters ending the netloc in `_splitnetloc`. -/
def isNetlocEnd (c : Char) : Bool := c = '/' || c = '?' || c = '#'

/-- CPython `urlsplit` (with `allow_fragments=True`): lstrip C0
controls/space, remove tab/CR/LF, then split scheme, netloc, fragment and
query. -/
def urlsplitL (cs0 : List Char) : Except String SplitResult :=
  let cs := (cs0.dropWhile isC0OrSpace).filter (fun c => !isUnsafeUrlByte c)
  let sr := splitScheme cs
  let scheme := sr.1
  let nr :=
    if startsWithL ['/', '/'] sr.2 then
      ((sr.2.drop 2).takeWhile (fun c => !isNetlocEnd c),
       (sr.2.drop 2).dropWhile (fun c => !isNetlocEnd c))
    else ([], sr.2)
  let netloc := nr.1
  if (netloc.contains '[' && !netloc.contains ']') ||
      (netloc.contains ']' && !netloc.contains '[') then
    .error "Invalid IPv6 URL"
  else
    let fr := match partitionAt '#' nr.2 with
      | some p => (p.1, p.2)
      | none => (nr.2, [])
    let qr := match partitionAt '?' fr.1 with
      | some p => (p.1, p.2)
      | none => (fr.1, [])
    .ok ⟨scheme, netloc, qr.1, qr.2, fr.2⟩

/-- CPython `uses_params`. -/
def uses_params : List String :=
  ["", "ftp", "hdl", "prospero", "http", "imap", "https", "shttp", "rtsp",
   "rtsps", "rtspu", "sip", "sips", "mms", "sftp", "tel"]

/-- CPython `uses_netloc`. -/
def uses_netloc : List String :=
  ["", "ftp", "http", "gopher", "nntp", "telnet", "imap", "wais", "file",
   "mms", "https", "shttp", "snews", "prospero", "rtsp", "rtsps", "rtspu",
   "rsync", "svn", "svn+ssh", "sftp", "nfs", "git", "git+ssh", "ws", "wss"]

/-- CPython `_splitparams`: split parameters after the first `;` of the last
path segment. -/
def splitparamsL (url : List Char) : List Char × List Char :=
  if url.contains '/' then
    match rpartitionAt '/' url with
    | some p =>
      match partitionAt ';' p.2 with
      | some q => (p.1 ++ '/' :: q.1, q.2)
      | none => (url, [])
    | none => (url, [])
  else
    match partitionAt ';' url with
    | some q => (q.1, q.2)
    | none => (url, [])

/-- Result of `urlparse`: a `SplitResult` plus the `params` component. -/
structure ParseResult extends SplitResult where
  params : List Char
deriving Repr, DecidableEq

/-- CPython `urlparse`. -/
def urlparseL (cs : List Char) : Except String ParseResult := do
  let sr ← urlsplitL cs
  if uses_params.contains (String.mk sr.scheme) && sr.path.contains ';' then
    let p := splitparamsL sr.path
    return { toSplitResult := { sr with path := p.1 }, params := p.2 }
  else
    return { toSplitResult := sr, params := [] }

/-- CPython `_hostinfo`: hostname and raw port text of a netloc. -/
def hostinfoOf (netloc : List Char) : List Char × Option (List Char) :=
  let hostinfo := match rpartitionAt '@' netloc with
    | some p => p.2
    | none => netloc
  match partitionAt '[' hostinfo with
  | some br =>
    let hp := match partitionAt ']' br.2 with
      | some p => (p.1, p.2)
      | none => (br.2, [])
    let port := match partitionAt ':' hp.2 with
      | some p => p.2
      | none => []
    (hp.1, if port = [] then none else some port)
  | none =>
    let hp := match partitionAt ':' hostinfo with
      | some p => (p.1, p.2)
      | none => (hostinfo, [])
    (hp.1, if hp.2 = [] then none else some hp.2)

/-- The `hostname` accessor: lower-cased host, `None` when empty. -/
def hostnameOf (netloc : List Char) : Option (List Char) :=
  let h := (hostinfoOf netloc).1
  if h = [] then none else some (lowerL h)

/-- The `port` accessor: decimal port in `0..65535`, raising `ValueError`
otherwise. -/
def portOf (netloc : List Char) : Except String (Option Nat) :=
  match (hostinfoOf netloc).2 with
  | none => .ok none
  | some ds =>
    match decimalToNat? ds with
    | none => .error "Port could not be cast to integer value"
    | some p => if p ≤ 65535 then .ok (some p) else .error "Port out of range 0-65535"

/-- Python truthiness of the netloc value (`None` and `""` are falsy). -/
def netlocTruthy : Option (List Char) → Bool
  | none => false
  | some l => !l.isEmpty

/-- CPython `urlunsplit`; the netloc is `Option` because the converter passes
`parsed.hostname`, which may be `None`. -/
def urlunsplitL (scheme : List Char) (netloc : Option (List Char))
    (url0 query fragment : List Char) : List Char :=
  let url1 :=
    if netlocTruthy netloc ||
        (!scheme.isEmpty && uses_netloc.contains (String.mk scheme) &&
          !startsWithL ['/', '/'] url0) then
      let u := if url0 ≠ [] ∧ url0.head? ≠ some '/' then '/' :: url0 else url0
      '/' :: '/' :: ((netloc.getD []) ++ u)
    else url0
  let url2 := if scheme ≠ [] then scheme ++ ':' :: url1 else url1
  let url3 := if query ≠ [] then url2 ++ '?' :: query else url2
  if fragment ≠ [] then url3 ++ '#' :: fragment else url3

/-- CPython `urlunparse`. -/
def urlunparseL (scheme : List Char) (netloc : Option (List Char))
    (url0 params query fragment : List Char) : List Char :=
  let u := if params ≠ [] then url0 ++ ';' :: params else url0
  urlunsplitL scheme netloc u query fragment

/-- `f"{None}"`. -/
def noneStr : List Char := ['N', 'o', 'n', 'e']

/-- Python truthiness of `parsed.port`: both `None` and `0` are falsy. -/
def portTruthy : Option Nat → Bool
  | none => false
  | some p => p != 0

/-- `strip_url_credentials` from `src/convert.py` (lines 16–36), on
`List Char`: parse, rebuild the netloc from `hostname`/`port` only (dropping
any userinfo; note `if parsed.port:` is Python-falsy for `None` *and* `0`),
and unparse. -/
def strip_url_credentialsL (cs : List Char) : Except String (List Char) := do
  let parsed ← urlparseL cs
  let host := hostnameOf parsed.netloc
  let port ← portOf parsed.netloc
  let netloc : Option (List Char) :=
    if portTruthy port then
      some ((match host with | some h => h | none => noneStr) ++ ':' ::
        natToDigitsL (port.getD 0))
    else host
  return urlunparseL parsed.scheme netloc parsed.path parsed.params parsed.query
    parsed.fragment

/-- `strip_url_credentials` on `String`. -/
def strip_url_credentials (s : String) : Except String String :=
  (strip_url_credentialsL s.data).map String.mk

/-! ## URLs built from components

`URLParts` describes a URL of the standard shape
`scheme://[user[:password]@]host[:port]path[?query][#fragment]`;
`renderURL` prints it.  `WF` cuts the class down to well-formed component
values (in particular: already lower-case scheme and host, no separator
characters inside components, port in `1..65535`). -/

structure URLParts where
  scheme : String
  username : Option String
  password : Option String
  host : String
  port : Option Nat
  path : String
  query : Option String
  fragment : Option String
deriving Repr, DecidableEq

def renderUserinfo (u : URLParts) : List Char :=
  match u.username with
  | none => []
  | some user =>
    user.data ++ (match u.password with | none => [] | some pw => ':' :: pw.data) ++ ['@']

def renderNetloc (u : URLParts) : List Char :=
  renderUserinfo u ++ u.host.data ++
    (match u.port with | none => [] | some p => ':' :: natToDigitsL p)

def renderL (u : URLParts) : List Char :=
  u.scheme.data ++ ':' :: '/' :: '/' :: renderNetloc u ++ u.path.data ++
    (match u.query with | none => [] | some q => '?' :: q.data) ++
    (match u.fragment with | none => [] | some f => '#' :: f.data)

def renderURL (u : URLParts) : String := String.mk (renderL u)

/-- The same URL with any userinfo removed. -/
def clearCredentials (u : URLParts) : URLParts :=
  { u with username := none, password := none }

/-- The fragment and query components of `renderL u` past the netloc. -/
def renderTail (u : URLParts) : List Char :=
  u.path.data ++
    (match u.query with | none => [] | some q => '?' :: q.data) ++
    (match u.fragment with | none => [] | some f => '#' :: f.data)

/-- Characters allowed in the userinfo components. -/
def userinfoSafe (c : Char) : Bool :=
  !(c = '/' || c = '?' || c = '#' || c = '[' || c = ']') &&
    !isUnsafeUrlByte c && c.toNat ≤ 127

/-- Characters allowed in the host. -/
def hostSafe (c : Char) : Bool := userinfoSafe c && !(c = '@' || c = ':')

/-- Characters allowed in the path. -/
def pathSafe (c : Char) : Bool :=
  !(c = '?' || c = '#' || c = ';') && !isUnsafeUrlByte c

/-- Characters allowed in the query. -/
def querySafe (c : Char) : Bool := !(c = '#') && !isUnsafeUrlByte c

/-- Well-formedness of URL components. -/
def WF (u : URLParts) : Prop :=
  u.scheme ≠ "" ∧
  (∀ c ∈ u.scheme.data.head?, c.isAlpha) ∧
  (∀ c ∈ u.scheme.data, schemeChars c) ∧
  lowerL u.scheme.data = u.scheme.data ∧
  (∀ user ∈ u.username, ∀ c ∈ user.data, userinfoSafe c) ∧
  (∀ pw ∈ u.password, ∀ c ∈ pw.data, userinfoSafe c) ∧
  (u.password.isSome → u.username.isSome) ∧
  u.host ≠ "" ∧
  (∀ c ∈ u.host.data, hostSafe c) ∧
  lowerL u.host.data = u.host.data ∧
  (∀ p ∈ u.port, 0 < p ∧ p ≤ 65535) ∧
  (u.path = "" ∨ u.path.data.head? = some '/') ∧
  (∀ c ∈ u.path.data, pathSafe c) ∧
  (∀ q ∈ u.query, q ≠ "" ∧ ∀ c ∈ q.data, querySafe c) ∧
  (∀ f ∈ u.fragment, f ≠ "" ∧ ∀ c ∈ f.data, !isUnsafeUrlByte c)

instance (u : URLParts) : Decidable (WF u) := by
  unfold WF
  infer_instance

/-! ## The manifest mapper (`convert_pipfile_to_pyproject`, lines 58–131)

The pure data transformation, with file input/output factored out: the parsed
Pipfile data comes in as `PipfileData`, the in-memory `pyproject` structure
goes out as `Pyproject`. -/

/-- A structured (TOML table) version spec, with the optional fields the
converter reads: `extras`, `git`, `ref`, `version`, `index`. -/
structure VersionTable where
  extras : Option (List String)
  git : Option String
  ref : Option String
  version : Option String
  index : Option String
deriving Repr, DecidableEq

/-- A Pipfile dependency value: a version string, a structured table, or
(`other`) any TOML value of another type (integer, array, boolean, …) whose
payload the converter never inspects. -/
inductive VersionSpec where
  | str : String → VersionSpec
  | table : VersionTable → VersionSpec
  | other : VersionSpec
deriving Repr, DecidableEq

/-- `dump_custom_version` (lines 39–55): extras rewrite the package name,
then git (with `ref` defaulting to `"main"`) takes priority over `version`,
and a bare name is the fallback. -/
def dump_custom_version (package : String) (version : VersionTable) : String :=
  let package :=
    match version.extras with
    | some extras => package ++ "[" ++ String.intercalate "," extras ++ "]"
    | none => package
  match version.git with
  | some git_url => package ++ " @ " ++ git_url ++ "@" ++ version.ref.getD "main"
  | none =>
    match version.version with
    | some v => package ++ v
    | none => package

/-- An entry of the Pipfile `source` list. -/
structure SourceEntry where
  name : String
  url : String
deriving Repr, DecidableEq

/-- The parsed Pipfile: the three top-level sections the converter reads,
each optional; mappings keep the file's insertion order. -/
structure PipfileData where
  source : Option (List SourceEntry)
  packages : Option (List (String × VersionSpec))
  devPackages : Option (List (String × VersionSpec))
deriving Repr, DecidableEq

/-- `str.replace("-", "_")`. -/
def replaceDash (s : String) : String :=
  String.mk (s.data.map fun c => if c = '-' then '_' else c)

/-- The `{"index": name}` records stored in `packages_with_index` and
`tool.uv.sources`. -/
structure IndexInfo where
  index : String
deriving Repr, DecidableEq

/-- Python dict assignment `d[k] = v`: replace the value in place if the key
exists (keeping its position), else append. -/
def dictInsert (d : List (String × IndexInfo)) (k : String) (v : IndexInfo) :
    List (String × IndexInfo) :=
  if d.any (fun kv => kv.1 = k) then
    d.map fun kv => if kv.1 = k then (k, v) else kv
  else d ++ [(k, v)]

/-- The `[project]` table; `devDependencies = none` models the absence of the
`dev-dependencies` key (after the `pop`). -/
structure ProjectSection where
  name : String
  version : String
  description : String
  requiresPython : String
  dependencies : List String
  devDependencies : Option (List String)
deriving Repr, DecidableEq

/-- The `[tool.uv]` table; `index = none` models the absence of the key. -/
structure ToolUv where
  devDependencies : List String
  sources : List (String × IndexInfo)
  index : Option (List SourceEntry)
deriving Repr, DecidableEq

structure Pyproject where
  project : ProjectSection
  toolUv : ToolUv
deriving Repr, DecidableEq

/-- The body of the dependency loop (lines 100–113) for one entry
`(package, version)`: the first state component collects the specifier
strings appended to the target list, the second is the
`packages_with_index` dict.  A value that is neither a string nor a table is
silently skipped — the `isinstance` chain has no `else` branch. -/
def processEntry (st : List String × List (String × IndexInfo))
    (pv : String × VersionSpec) : List String × List (String × IndexInfo) :=
  match pv.2 with
  | .str v =>
    if v = "*" then (st.1 ++ [pv.1], st.2)
    else (st.1 ++ [pv.1 ++ v], st.2)
  | .table t =>
    let reg := match t.index with
      | some i => dictInsert st.2 pv.1 ⟨i⟩
      | none => st.2
    (st.1 ++ [dump_custom_version pv.1 t], reg)
  | .other => st

/-- One pass of the dependency loop (lines 97–113) over the entries of one
Pipfile section. -/
def processSection (st : List String × List (String × IndexInfo))
    (entries : List (String × VersionSpec)) :
    List String × List (String × IndexInfo) :=
  entries.foldl processEntry st

/-- Lines 121–124: relocate `project["dev-dependencies"]` (popping the key)
into `tool.uv["dev-dependencies"]`.  (In the converter the key is always
present when this runs; `getD []` covers the impossible `KeyError`.) -/
def popDevDependencies (p : Pyproject) : Pyproject :=
  { project := { p.project with devDependencies := none },
    toolUv := { p.toolUv with
      devDependencies := p.project.devDependencies.getD [] } }

/-- Lines 86–91: one `source` entry of the target index list — name
normalised, URL stripped of credentials. -/
def convertSource (s : SourceEntry) : Except String SourceEntry := do
  let url ← strip_url_credentials s.url
  pure { name := replaceDash s.name, url := url }

/-- Lines 83–91: the `tool.uv.index` list — present only when the Pipfile
has a `source` section, in source order; a URL parse error aborts. -/
def convertIndex : Option (List SourceEntry) →
    Except String (Option (List SourceEntry))
  | none => .ok none
  | some sources => (sources.mapM convertSource).map some

/-- The pure core of `convert_pipfile_to_pyproject` (lines 58–124; file
reading/writing and the final `transform_file` call are composed separately):
build the source index list (normalising names and stripping URL
credentials), render both dependency sections, normalise the pending index
overrides into `tool.uv.sources`, and relocate the dev-dependencies. -/
def convert_pipfile_to_pyproject (data : PipfileData)
    (project_name project_version project_description python_version : String) :
    Except String Pyproject :=
  (convertIndex data.source).bind fun index? =>
    let dep := processSection ([], []) (data.packages.getD [])
    let dev := processSection ([], dep.2) (data.devPackages.getD [])
    let sources := dev.2.map fun kv => (kv.1, (⟨replaceDash kv.2.index⟩ : IndexInfo))
    .ok (popDevDependencies {
      project := {
        name := project_name
        version := project_version
        description := project_description
        requiresPython := "==" ++ python_version
        dependencies := dep.1
        devDependencies := some dev.1 }
      toolUv := {
        devDependencies := []
        sources := sources
        index := index? } })

/-! ## The table rewriter (`transform_file`, lines 134–165) -/

/-- The literal prefix of the header pattern of line 150. -/
def sourcesHeaderPfx : List Char := "[tool.uv.sources.".data

/-- The literal prefix tested on line 155. -/
def indexPfx : List Char := "index =".data

/-- `re.match(r"^\[tool\.uv\.sources\.(.*?)\]$", s)` on a stripped line: the
line must be exactly `[tool.uv.sources.` ++ group ++ `]`, where the group
(lazy, but pinned by both anchors) cannot span a newline. -/
def matchSourcesHeader (s : List Char) : Option (List Char) :=
  if startsWithL sourcesHeaderPfx s && decide (sourcesHeaderPfx.length + 1 ≤ s.length) &&
      (s.getLast? == some ']') &&
      ((s.drop sourcesHeaderPfx.length).dropLast.all fun c => c != '\n') then
    some ((s.drop sourcesHeaderPfx.length).dropLast)
  else none

/-- `re.search(r'"(.+?)"', s)`: from the leftmost feasible opening quote,
take one character plus everything up to the next quote; `.` does not match
a newline, and a failed opening position falls through to later ones. -/
def extractQuoted : List Char → Option (List Char)
  | [] => none
  | c :: after =>
    if c = '"' then
      match after with
      | [] => none
      | c1 :: rest =>
        match partitionAt '"' rest with
        | some p =>
          if (c1 :: p.1).all (fun x => x != '\n') then some (c1 :: p.1)
          else extractQuoted after
        | none => extractQuoted after
    else extractQuoted after

/-- One iteration of the rewrite loop (lines 148–160): given the pending
`current_section` state and the next line, return the emitted line and the
new state; `none` models the uncaught `AttributeError` when an `index =`
line has no quoted value.  Note Python's truthiness in
`current_section and …`: an empty section name never fires the rewrite. -/
def transformStep (current_section : Option String) (line : String) :
    Option (String × Option String) :=
  match matchSourcesHeader (stripL line.data) with
  | some pkg => some ("[tool.uv.sources]", some (String.mk pkg))
  | none =>
    if current_section.getD "" ≠ "" ∧ startsWithL indexPfx (stripL line.data) = true then
      match extractQuoted (stripL line.data) with
      | some v =>
        some (current_section.getD "" ++ " = \x7bindex = \"" ++ String.mk v ++ "\"\x7d",
          none)
      | none => none
    else some (String.mk (rstripL line.data), current_section)

/-- The rewrite loop from a given state: emitted lines and final state. -/
def transformLinesFrom (st : Option String) :
    List String → Option (List String × Option String)
  | [] => some ([], st)
  | line :: rest =>
    match transformStep st line with
    | none => none
    | some q =>
      match transformLinesFrom q.2 rest with
      | none => none
      | some r => some (q.1 :: r.1, r.2)

/-- `transform_file` (lines 134–165) as a function on the list of input
lines (`readlines` keeps each trailing newline, which `strip`/`rstrip`
remove, so lines are taken without their newline); `none` models the
uncaught `AttributeError`. -/
def transform_file (lines : List String) : Option (List String) :=
  (transformLinesFrom none lines).map fun p => p.1

/-! ## Serialisation model and full pipeline (for the determinism claim) -/

/-- A TOML string literal (plain quoting; the converter's data contains no
characters needing escapes in the cases of interest, and the determinism
claim does not depend on the details). -/
def tomlString (s : String) : String := "\"" ++ s ++ "\""

/-- Modelled from the `toml` library's `dump` for the shapes produced by
`convert_pipfile_to_pyproject`: scalar keys line by line, arrays inline,
`[[tool.uv.index]]` blocks, and one `[tool.uv.sources.pkg]` table per source
override (the very shape `transform_file` rewrites). -/
def tomlDumpLines (p : Pyproject) : List String :=
  ["[project]",
    "name = " ++ tomlString p.project.name,
    "version = " ++ tomlString p.project.version,
    "description = " ++ tomlString p.project.description,
    "requires-python = " ++ tomlString p.project.requiresPython,
    "dependencies = [" ++
      String.intercalate ", " (p.project.dependencies.map tomlString) ++ "]"]
  ++ (match p.project.devDependencies with
      | none => []
      | some l =>
        ["dev-dependencies = [" ++ String.intercalate ", " (l.map tomlString) ++ "]"])
  ++ ["", "[tool]", "[tool.uv]",
      "dev-dependencies = [" ++
        String.intercalate ", " (p.toolUv.devDependencies.map tomlString) ++ "]"]
  ++ (match p.toolUv.index with
      | none => []
      | some entries =>
        entries.foldr (fun e acc =>
          ["", "[[tool.uv.index]]",
            "name = " ++ tomlString e.name,
            "url = " ++ tomlString e.url] ++ acc) [])
  ++ (if p.toolUv.sources.isEmpty then []
      else ["", "[tool.uv.sources]"] ++
        p.toolUv.sources.foldr (fun kv acc =>
          ["[tool.uv.sources." ++ kv.1 ++ "]",
            "index = " ++ tomlString kv.2.index] ++ acc) [])

/-- The full conversion pipeline on data already read from disk: mapper,
serialisation, rewriter.  Errors propagate (`ValueError` from URL parsing,
`AttributeError` from the rewriter). -/
def runPipeline (data : PipfileData)
    (project_name project_version project_description python_version : String) :
    Except String (List String) := do
  let py ← convert_pipfile_to_pyproject data project_name project_version
    project_description python_version
  match transform_file (tomlDumpLines py) with
  | some outLines => pure outLines
  | none => .error "AttributeError"

/-! ## Sample inputs used by witnesses and concrete scenarios -/

/-- A Pipfile with one package pinned to a custom index, as in the spec's
scenario for the sources invariant. -/
def sampleIndexedManifest : PipfileData :=
  ⟨none, some [("pkg", .table ⟨none, none, none, some "==1.0", some "my-index"⟩)], none⟩

/-- The expected conversion of `sampleIndexedManifest`. -/
def sampleIndexedPyproject : Pyproject :=
  { project := { name := "n"
                 version := "v"
                 description := "d"
                 requiresPython := "==3.10"
                 dependencies := ["pkg==1.0"]
                 devDependencies := none }
    toolUv := { devDependencies := []
                sources := [("pkg", ⟨"my_index"⟩)]
                index := none } }

/-- The expected conversion of `sampleDevManifest`. -/
def sampleDevPyproject : Pyproject :=
  { project := { name := "n"
                 version := "v"
                 description := "d"
                 requiresPython := "==3.10"
                 dependencies := []
                 devDependencies := none }
    toolUv := { devDependencies := ["s>=2"]
                sources := []
                index := none } }

/-- The output of the converter on a manifest whose only entry is dropped. -/
def sampleEmptyPyproject : Pyproject :=
  { project := { name := "n"
                 version := "v"
                 description := "d"
                 requiresPython := "==3.10"
                 dependencies := []
                 devDependencies := none }
    toolUv := { devDependencies := []
                sources := []
                index := none } }

/-- A Pipfile with a single dev dependency. -/
def sampleDevManifest : PipfileData := ⟨none, none, some [("s", .str ">=2")]⟩

/-! ### List and digit helper lemmas -/

theorem startsWithL_append (pat rest : List Char) :
    startsWithL pat (pat ++ rest) = true := by
  induction pat with
  | nil => rfl
  | cons p ps ih => simp [startsWithL, ih]

theorem startsWithL_iff (pat cs : List Char) :
    startsWithL pat cs = true ↔ ∃ rest, cs = pat ++ rest := by
  induction pat generalizing cs with
  | nil => simp [startsWithL]
  | cons p ps ih =>
    cases cs with
    | nil => simp [startsWithL]
    | cons c cs =>
      simp only [startsWithL, Bool.and_eq_true, beq_iff_eq, ih]
      constructor
      · rintro ⟨rfl, rest, rfl⟩; exact ⟨rest, rfl⟩
      · rintro ⟨rest, h⟩
        cases h
        exact ⟨rfl, rest, rfl⟩

theorem partitionAt_of_not_mem {c : Char} {xs : List Char} (h : c ∉ xs) :
    partitionAt c xs = none := by
  induction xs with
  | nil => rfl
  | cons x xs ih =>
    simp only [List.mem_cons, not_or] at h
    simp [partitionAt, Ne.symm h.1, ih h.2]

theorem partitionAt_append_first {c : Char} {xs : List Char} (ys : List Char)
    (h : c ∉ xs) : partitionAt c (xs ++ c :: ys) = some (xs, ys) := by
  induction xs with
  | nil => simp [partitionAt]
  | cons x xs ih =>
    simp only [List.mem_cons, not_or] at h
    simp [partitionAt, Ne.symm h.1, ih h.2]

theorem rpartitionAt_of_not_mem {c : Char} {xs : List Char} (h : c ∉ xs) :
    rpartitionAt c xs = none := by
  simp [rpartitionAt, partitionAt_of_not_mem, h]

theorem rpartitionAt_append_last {c : Char} (xs : List Char) {ys : List Char}
    (h : c ∉ ys) : rpartitionAt c (xs ++ c :: ys) = some (xs, ys) := by
  have : (xs ++ c :: ys).reverse = ys.reverse ++ c :: xs.reverse := by
    simp
  rw [rpartitionAt, this, partitionAt_append_first _ (by simpa using h)]
  simp

theorem takeWhile_append_of_all {p : Char → Bool} {xs : List Char}
    (ys : List Char) (h : ∀ x ∈ xs, p x) :
    (xs ++ ys).takeWhile p = xs ++ ys.takeWhile p := by
  induction xs with
  | nil => rfl
  | cons x xs ih =>
    simp only [List.cons_append, List.takeWhile_cons, h x (by simp)]
    simp [ih fun a ha => h a (by simp [ha])]

theorem dropWhile_append_of_all {p : Char → Bool} {xs : List Char}
    (ys : List Char) (h : ∀ x ∈ xs, p x) :
    (xs ++ ys).dropWhile p = ys.dropWhile p := by
  induction xs with
  | nil => rfl
  | cons x xs ih =>
    simp only [List.cons_append, List.dropWhile_cons, h x (by simp)]
    simp [ih fun a ha => h a (by simp [ha])]

theorem digitVal?_digitChar {d : Nat} (h : d < 10) :
    digitVal? (digitChar d) = some d := by
  have key : ∀ d : Fin 10, digitVal? (digitChar d.val) = some d.val := by decide
  exact key ⟨d, h⟩

theorem natToDigitsL_ne_nil (n : Nat) : natToDigitsL n ≠ [] := by
  rw [natToDigitsL]
  split <;> simp

theorem natToDigitsL_digits (n : Nat) : ∀ c ∈ natToDigitsL n, c ∈ digitList := by
  induction n using Nat.strong_induction_on with
  | _ n ih =>
    rw [natToDigitsL]
    by_cases h : n < 10
    · rw [dif_pos h]
      intro c hc
      simp only [List.mem_singleton] at hc
      subst hc
      have key : ∀ d : Fin 10, digitChar d.val ∈ digitList := by decide
      exact key ⟨n, h⟩
    · rw [dif_neg h]
      intro c hc
      rw [List.mem_append] at hc
      rcases hc with hc | hc
      · exact ih (n / 10) (Nat.div_lt_self (by omega) (by omega)) c hc
      · simp only [List.mem_singleton] at hc
        subst hc
        have key : ∀ d : Fin 10, digitChar d.val ∈ digitList := by decide
        exact key ⟨n % 10, Nat.mod_lt _ (by omega)⟩

theorem decimalToNat?_natToDigitsL (n : Nat) :
    decimalToNat? (natToDigitsL n) = some n := by
  have main : ∀ n a : Nat,
      (natToDigitsL n).foldl
        (fun acc c => acc.bind fun x => (digitVal? c).map fun d => 10 * x + d)
        (some a)
      = some (a * 10 ^ (natToDigitsL n).length + n) := by
    intro n
    induction n using Nat.strong_induction_on with
    | _ n ih =>
      intro a
      rw [natToDigitsL]
      by_cases h : n < 10
      · rw [dif_pos h]
        simp only [List.foldl_cons, List.foldl_nil, digitVal?_digitChar h, Option.some_bind,
          Option.map_some', List.length_singleton, pow_one, Option.some.injEq]
        omega
      · rw [dif_neg h, List.foldl_append,
          ih (n / 10) (Nat.div_lt_self (by omega) (by omega)) a]
        have h10 : n % 10 < 10 := Nat.mod_lt _ (by omega)
        simp only [List.foldl_cons, List.foldl_nil, digitVal?_digitChar h10, Option.some_bind,
          Option.map_some', List.length_append, List.length_singleton, Option.some.injEq,
          pow_succ, ← Nat.mul_assoc]
        omega
  rw [decimalToNat?, if_neg (natToDigitsL_ne_nil n)]
  have := main n 0
  simpa using this

/-! ### Character-class facts used by the round-trip proof -/

theorem schemeChars_spec {c : Char} (h : schemeChars c = true) :
    c ≠ ':' ∧ isUnsafeUrlByte c = false ∧ isC0OrSpace c = false := by
  have hm : c ∈ scheme_chars := by simpa [schemeChars] using h
  have key : ∀ x ∈ scheme_chars,
      x ≠ ':' ∧ isUnsafeUrlByte x = false ∧ isC0OrSpace x = false := by decide
  exact key c hm

theorem digitList_spec :
    ∀ c ∈ digitList, c ≠ ':' ∧ c ≠ '@' ∧ c ≠ '[' ∧ c ≠ ']' ∧
      isNetlocEnd c = false ∧ isUnsafeUrlByte c = false := by decide

theorem userinfoSafe_spec {c : Char} (h : userinfoSafe c = true) :
    c ≠ '[' ∧ c ≠ ']' ∧ isNetlocEnd c = false ∧ isUnsafeUrlByte c = false := by
  simp only [userinfoSafe, isUnsafeUrlByte, isNetlocEnd, Bool.and_eq_true,
    Bool.not_eq_true', Bool.or_eq_false_iff, decide_eq_false_iff_not] at h ⊢
  tauto

theorem hostSafe_spec {c : Char} (h : hostSafe c = true) :
    c ≠ '@' ∧ c ≠ ':' ∧ c ≠ '[' ∧ c ≠ ']' ∧ isNetlocEnd c = false ∧
      isUnsafeUrlByte c = false := by
  simp only [hostSafe, Bool.and_eq_true, Bool.not_eq_true', Bool.or_eq_false_iff,
    decide_eq_false_iff_not] at h
  have h2 := userinfoSafe_spec h.1
  tauto

theorem pathSafe_spec {c : Char} (h : pathSafe c = true) :
    c ≠ '?' ∧ c ≠ '#' ∧ c ≠ ';' ∧ isUnsafeUrlByte c = false := by
  simp only [pathSafe, Bool.and_eq_true, Bool.not_eq_true', Bool.or_eq_false_iff,
    decide_eq_false_iff_not] at h
  tauto

theorem querySafe_spec {c : Char} (h : querySafe c = true) :
    c ≠ '#' ∧ isUnsafeUrlByte c = false := by
  simp only [querySafe, Bool.and_eq_true, Bool.not_eq_true',
    decide_eq_false_iff_not] at h
  tauto

theorem data_ne_nil_of_ne_empty {s : String} (h : s ≠ "") : s.data ≠ [] := by
  cases s with
  | mk d =>
    intro hd
    apply h
    simp only at hd
    subst hd
    rfl

/-! ### Parsing `renderL u` back, under `WF` -/

theorem renderNetloc_spec {u : URLParts} (h : WF u) :
    ∀ c ∈ renderNetloc u, isNetlocEnd c = false ∧ isUnsafeUrlByte c = false ∧
      c ≠ '[' ∧ c ≠ ']' := by
  obtain ⟨_, _, _, _, huser, hpw, _, _, hhost, _, _, _, _, _, _⟩ := h
  rw [renderNetloc]
  refine List.forall_mem_append.mpr ⟨List.forall_mem_append.mpr ⟨?_, ?_⟩, ?_⟩
  · -- userinfo part
    rw [renderUserinfo]
    rcases hu : u.username with _ | user
    · simp
    · refine List.forall_mem_append.mpr ⟨List.forall_mem_append.mpr ⟨?_, ?_⟩, ?_⟩
      · intro c hc
        have := userinfoSafe_spec (huser user (by rw [hu]; rfl) c hc)
        tauto
      · rcases hq : u.password with _ | pw
        · simp
        · intro c hc
          rcases List.mem_cons.mp hc with rfl | hc
          · exact ⟨by decide, by decide, by decide, by decide⟩
          · have := userinfoSafe_spec (hpw pw (by rw [hq]; rfl) c hc)
            tauto
      · intro c hc
        rcases List.mem_singleton.mp hc with rfl
        exact ⟨by decide, by decide, by decide, by decide⟩
  · -- host part
    intro c hc
    have := hostSafe_spec (hhost c hc)
    tauto
  · -- port part
    rcases hp : u.port with _ | p
    · simp
    · intro c hc
      rcases List.mem_cons.mp hc with rfl | hc
      · exact ⟨by decide, by decide, by decide, by decide⟩
      · have := digitList_spec c (natToDigitsL_digits p c hc)
        tauto

theorem hostinfoOf_renderNetloc {u : URLParts} (h : WF u) :
    hostinfoOf (renderNetloc u) = (u.host.data, u.port.map natToDigitsL) := by
  obtain ⟨_, _, _, _, _, _, _, _, hhost, _, _, _, _, _, _⟩ := h
  have hColonHost : ':' ∉ u.host.data := fun hm => (hostSafe_spec (hhost _ hm)).2.1 rfl
  have hHP : ∀ c ∈ u.host.data ++
      (match u.port with | none => [] | some p => ':' :: natToDigitsL p),
      c ≠ '@' ∧ c ≠ '[' := by
    intro c hc
    rcases List.mem_append.mp hc with hc | hc
    · have := hostSafe_spec (hhost c hc)
      tauto
    · rcases hp : u.port with _ | p <;> rw [hp] at hc
      · simp at hc
      · rcases List.mem_cons.mp hc with rfl | hc
        · exact ⟨by decide, by decide⟩
        · have := digitList_spec c (natToDigitsL_digits p c hc)
          tauto
  have hAtHP : '@' ∉ u.host.data ++
      (match u.port with | none => [] | some p => ':' :: natToDigitsL p) :=
    fun hm => (hHP _ hm).1 rfl
  have hBrHP : '[' ∉ u.host.data ++
      (match u.port with | none => [] | some p => ':' :: natToDigitsL p) :=
    fun hm => (hHP _ hm).2 rfl
  have hrp : rpartitionAt '@' (renderNetloc u)
      = match rpartitionAt '@' (renderNetloc u) with
        | some q => some q
        | none => none := by
    rcases rpartitionAt '@' (renderNetloc u) <;> rfl
  have hhostinfo :
      (match rpartitionAt '@' (renderNetloc u) with
        | some q => q.2
        | none => renderNetloc u)
      = u.host.data ++
        (match u.port with | none => [] | some p => ':' :: natToDigitsL p) := by
    rcases hu : u.username with _ | user
    · have hrn : renderNetloc u = u.host.data ++
          (match u.port with | none => [] | some p => ':' :: natToDigitsL p) := by
        rw [renderNetloc, renderUserinfo, hu, List.nil_append]
      rw [hrn, rpartitionAt_of_not_mem hAtHP]
    · have hrn : renderNetloc u =
          (user.data ++ (match u.password with | none => [] | some pw => ':' :: pw.data))
            ++ '@' :: (u.host.data ++
              (match u.port with | none => [] | some p => ':' :: natToDigitsL p)) := by
        rw [renderNetloc, renderUserinfo, hu]
        simp [List.append_assoc]
      rw [hrn, rpartitionAt_append_last _ hAtHP]
  rw [hostinfoOf, hhostinfo, partitionAt_of_not_mem hBrHP]
  rcases hp : u.port with _ | p
  · simp only [List.append_nil, partitionAt_of_not_mem hColonHost, Option.map_none']
    simp
  · simp only [partitionAt_append_first _ hColonHost, Option.map_some']
    simp [natToDigitsL_ne_nil p]

theorem hostnameOf_renderNetloc {u : URLParts} (h : WF u) :
    hostnameOf (renderNetloc u) = some u.host.data := by
  have hne : u.host.data ≠ [] := data_ne_nil_of_ne_empty h.2.2.2.2.2.2.2.1
  have hlow : lowerL u.host.data = u.host.data := h.2.2.2.2.2.2.2.2.2.1
  rw [hostnameOf, hostinfoOf_renderNetloc h]
  simp [hne, hlow]

theorem portOf_renderNetloc {u : URLParts} (h : WF u) :
    portOf (renderNetloc u) = .ok u.port := by
  have hport := h.2.2.2.2.2.2.2.2.2.2.1
  rw [portOf, hostinfoOf_renderNetloc h]
  rcases hp : u.port with _ | p
  · rfl
  · simp only [Option.map_some']
    rw [decimalToNat?_natToDigitsL p]
    have := (hport p (by rw [hp]; rfl)).2
    simp [this]

theorem splitScheme_app {u : URLParts} (h : WF u) (rest : List Char) :
    splitScheme (u.scheme.data ++ ':' :: rest) = (u.scheme.data, rest) := by
  obtain ⟨hne, hhead, hall, hlow, _⟩ := h
  have hnotc : ':' ∉ u.scheme.data := fun hm => (schemeChars_spec (hall _ hm)).1 rfl
  obtain ⟨c0, r0, hd⟩ : ∃ c0 r0, u.scheme.data = c0 :: r0 := by
    rcases he : u.scheme.data with _ | ⟨c0, r0⟩
    · exact absurd he (data_ne_nil_of_ne_empty hne)
    · exact ⟨c0, r0, rfl⟩
  rw [hd] at hnotc hhead hall hlow ⊢
  have h1 : c0.isAlpha = true := hhead c0 (by simp)
  have h2 : (c0 :: r0).all schemeChars = true := List.all_eq_true.mpr hall
  rw [splitScheme.eq_def, partitionAt_append_first rest hnotc]
  simp only [h1, h2, Bool.and_self, if_true, hlow]

theorem renderTail_shape {u : URLParts} (h : WF u) :
    renderTail u = [] ∨
      ∃ c tl, renderTail u = c :: tl ∧ isNetlocEnd c = true := by
  obtain ⟨_, _, _, _, _, _, _, _, _, _, _, hpath, _, _, _⟩ := h
  rcases hpa : u.path.data with _ | ⟨c, cs⟩
  · rcases hq : u.query with _ | q
    · rcases hf : u.fragment with _ | f
      · left
        rw [renderTail, hpa, hq, hf]
        rfl
      · refine Or.inr ⟨'#', f.data, ?_, by decide⟩
        rw [renderTail, hpa, hq, hf]
        rfl
    · refine Or.inr ⟨'?', q.data ++
        (match u.fragment with | none => [] | some f => '#' :: f.data), ?_, by decide⟩
      rw [renderTail, hpa, hq]
      rfl
  · have hc : c = '/' := by
      rcases hpath with hpath | hpath
      · have : u.path.data = [] := by rw [hpath]
        rw [this] at hpa
        cases hpa
      · rw [hpa] at hpath
        simp only [List.head?_cons, Option.some.injEq] at hpath
        exact hpath
    subst hc
    refine Or.inr ⟨'/', cs ++
      (match u.query with | none => [] | some q => '?' :: q.data) ++
      (match u.fragment with | none => [] | some f => '#' :: f.data), ?_, by decide⟩
    rw [renderTail, hpa]
    simp [List.append_assoc]

theorem urlsplitL_renderL {u : URLParts} (h : WF u) :
    urlsplitL (renderL u) = .ok
      ⟨u.scheme.data, renderNetloc u, u.path.data,
        (match u.query with | none => [] | some q => q.data),
        (match u.fragment with | none => [] | some f => f.data)⟩ := by
  obtain ⟨hne, hhead, hall, hlow, huser, hpw, hpwu, hhne, hhost, hhlow, hport,
    hpath, hpathc, hq, hf⟩ := h
  have hW : WF u := ⟨hne, hhead, hall, hlow, huser, hpw, hpwu, hhne, hhost, hhlow,
    hport, hpath, hpathc, hq, hf⟩
  -- the render splits as scheme ++ ':' :: rest
  have hrender : renderL u
      = u.scheme.data ++ ':' :: ('/' :: '/' :: (renderNetloc u ++ renderTail u)) := by
    rw [renderL, renderTail]
    simp [List.append_assoc]
  -- preprocessing is the identity on the rendered URL
  have hpre : ((renderL u).dropWhile isC0OrSpace).filter (fun c => !isUnsafeUrlByte c)
      = renderL u := by
    have hunsafe : ∀ c ∈ renderL u, (!isUnsafeUrlByte c) = true := by
      rw [renderL]
      refine List.forall_mem_append.mpr ⟨List.forall_mem_append.mpr
        ⟨List.forall_mem_append.mpr ⟨?_, ?_⟩, ?_⟩, ?_⟩
      · intro c hc
        rcases List.mem_append.mp hc with hc | hc
        · simp [(schemeChars_spec (hall c hc)).2.1]
        · rcases List.mem_cons.mp hc with rfl | hc
          · decide
          · rcases List.mem_cons.mp hc with rfl | hc
            · decide
            · rcases List.mem_cons.mp hc with rfl | hc
              · decide
              · simp [(renderNetloc_spec hW c hc).2.1]
      · intro c hc
        simp [(pathSafe_spec (hpathc c hc)).2.2.2]
      · rcases hqq : u.query with _ | q
        · simp
        · intro c hc
          rcases List.mem_cons.mp hc with rfl | hc
          · decide
          · simp [(querySafe_spec ((hq q (by rw [hqq]; rfl)).2 c hc)).2]
      · rcases hff : u.fragment with _ | f
        · simp
        · intro c hc
          rcases List.mem_cons.mp hc with rfl | hc
          · decide
          · exact (hf f (by rw [hff]; rfl)).2 c hc
    have hdrop : (renderL u).dropWhile isC0OrSpace = renderL u := by
      obtain ⟨c0, r0, hd⟩ : ∃ c0 r0, u.scheme.data = c0 :: r0 := by
        rcases he : u.scheme.data with _ | ⟨c0, r0⟩
        · exact absurd he (data_ne_nil_of_ne_empty hne)
        · exact ⟨c0, r0, rfl⟩
      have hc0 : isC0OrSpace c0 = false :=
        (schemeChars_spec (hall c0 (by rw [hd]; simp))).2.2
      rw [renderL, hd]
      simp [List.dropWhile_cons, hc0]
    rw [hdrop, List.filter_eq_self.mpr hunsafe]
  -- netloc characters survive `takeWhile`
  have hnet : ∀ x ∈ renderNetloc u, (!isNetlocEnd x) = true := by
    intro x hx
    simp [(renderNetloc_spec hW x hx).1]
  have htake : (renderNetloc u ++ renderTail u).takeWhile (fun c => !isNetlocEnd c)
      = renderNetloc u := by
    rw [takeWhile_append_of_all _ hnet]
    rcases renderTail_shape hW with htl | ⟨c, tl, htl, hend⟩
    · rw [htl]; simp
    · rw [htl]
      simp [List.takeWhile_cons, hend]
  have hdropw : (renderNetloc u ++ renderTail u).dropWhile (fun c => !isNetlocEnd c)
      = renderTail u := by
    rw [dropWhile_append_of_all _ hnet]
    rcases renderTail_shape hW with htl | ⟨c, tl, htl, hend⟩
    · rw [htl]; simp
    · rw [htl]
      simp [List.dropWhile_cons, hend]
  -- no brackets in the netloc
  have hbr1 : (renderNetloc u).contains '[' = false := by
    have : '[' ∉ renderNetloc u := fun hm => (renderNetloc_spec hW _ hm).2.2.1 rfl
    simpa using this
  have hbr2 : (renderNetloc u).contains ']' = false := by
    have : ']' ∉ renderNetloc u := fun hm => (renderNetloc_spec hW _ hm).2.2.2 rfl
    simpa using this
  -- fragment and query splits
  have hnofragpq : '#' ∉ u.path.data ++
      (match u.query with | none => [] | some q => '?' :: q.data) := by
    intro hm
    rcases List.mem_append.mp hm with hm | hm
    · exact (pathSafe_spec (hpathc _ hm)).2.1 rfl
    · rcases hqq : u.query with _ | q <;> rw [hqq] at hm
      · simp at hm
      · rcases List.mem_cons.mp hm with he | hm
        · exact absurd he (by decide)
        · exact (querySafe_spec ((hq q (by rw [hqq]; rfl)).2 _ hm)).1 rfl
  have hnoqp : '?' ∉ u.path.data := fun hm => (pathSafe_spec (hpathc _ hm)).1 rfl
  rw [urlsplitL, hpre, hrender, splitScheme_app hW]
  simp only [startsWithL, beq_self_eq_true, Bool.and_self, List.drop_succ_cons,
    List.drop_zero, if_true]
  rw [htake, hdropw]
  simp only [hbr1, hbr2, Bool.false_and, Bool.and_false, Bool.not_false,
    Bool.or_self, Bool.false_or, if_false]
  rw [renderTail]
  rcases hff : u.fragment with _ | f <;> rcases hqq : u.query with _ | q <;>
    rw [hqq] at hnofragpq
  · simp only [List.append_nil] at hnofragpq ⊢
    rw [partitionAt_of_not_mem hnofragpq, partitionAt_of_not_mem hnoqp]
    simp
  · simp only [List.append_nil]
    rw [partitionAt_of_not_mem hnofragpq, partitionAt_append_first _ hnoqp]
    simp
  · simp only [List.append_nil] at hnofragpq ⊢
    rw [partitionAt_append_first _ hnofragpq, partitionAt_of_not_mem hnoqp]
    simp
  · rw [partitionAt_append_first _ hnofragpq, partitionAt_append_first _ hnoqp]
    simp

theorem urlparseL_renderL {u : URLParts} (h : WF u) :
    urlparseL (renderL u) = .ok
      { toSplitResult :=
          ⟨u.scheme.data, renderNetloc u, u.path.data,
            (match u.query with | none => [] | some q => q.data),
            (match u.fragment with | none => [] | some f => f.data)⟩,
        params := [] } := by
  have hnosemi : ';' ∉ u.path.data :=
    fun hm => (pathSafe_spec (h.2.2.2.2.2.2.2.2.2.2.2.2.1 _ hm)).2.2.1 rfl
  have hbind : ∀ (x : SplitResult) (f : SplitResult → Except String ParseResult),
      (do let sr ← Except.ok x; f sr) = f x := fun _ _ => rfl
  rw [urlparseL, urlsplitL_renderL h, hbind]
  simp [hnosemi]
  rfl

theorem urlunsplitL_app {u : URLParts} (h : WF u) :
    urlunsplitL u.scheme.data (some (renderNetloc (clearCredentials u))) u.path.data
      (match u.query with | none => [] | some q => q.data)
      (match u.fragment with | none => [] | some f => f.data)
    = renderL (clearCredentials u) := by
  obtain ⟨hne, _, _, _, _, _, _, hhne, _, _, _, hpath, _, hq, hf⟩ := h
  have hnd : u.host.data ≠ [] := data_ne_nil_of_ne_empty hhne
  have htruthy :
      netlocTruthy (some (renderNetloc (clearCredentials u))) = true := by
    rw [netlocTruthy, renderNetloc]
    show (!(u.host.data ++ _).isEmpty) = true
    rcases hh : u.host.data with _ | ⟨c, cs⟩
    · exact absurd hh hnd
    · simp
  have hu0 : (if u.path.data ≠ [] ∧ u.path.data.head? ≠ some '/'
      then '/' :: u.path.data else u.path.data) = u.path.data := by
    rcases hpath with hpath | hpath
    · have hd : u.path.data = [] := by rw [hpath]
      simp [hd]
    · rw [if_neg]
      rintro ⟨_, hne'⟩
      exact hne' hpath
  have hsch : u.scheme.data ≠ [] := data_ne_nil_of_ne_empty hne
  rw [urlunsplitL, htruthy]
  simp only [Bool.true_or, if_true, hu0, Option.getD_some]
  rw [if_pos hsch]
  have hclear : renderL (clearCredentials u)
      = u.scheme.data ++ ':' :: '/' :: '/' ::
          (renderNetloc (clearCredentials u) ++ u.path.data ++
            (match u.query with | none => [] | some q => '?' :: q.data) ++
            (match u.fragment with | none => [] | some f => '#' :: f.data)) := by
    rw [renderL]
    simp [clearCredentials, List.append_assoc]
  rcases hqq : u.query with _ | q <;> rcases hff : u.fragment with _ | f
  · rw [if_neg (by simp), if_neg (by simp), hclear, hqq, hff]
    simp
  · have hfd : f.data ≠ [] := data_ne_nil_of_ne_empty (hf f (by rw [hff]; rfl)).1
    rw [if_pos hfd, if_neg (by simp), hclear, hqq, hff]
    simp [List.append_assoc]
  · have hqd : q.data ≠ [] := data_ne_nil_of_ne_empty (hq q (by rw [hqq]; rfl)).1
    rw [if_neg (by simp), if_pos hqd, hclear, hqq, hff]
    simp [List.append_assoc]
  · have hfd : f.data ≠ [] := data_ne_nil_of_ne_empty (hf f (by rw [hff]; rfl)).1
    have hqd : q.data ≠ [] := data_ne_nil_of_ne_empty (hq q (by rw [hqq]; rfl)).1
    rw [if_pos hfd, if_pos hqd, hclear, hqq, hff]
    simp [List.append_assoc]

theorem strip_url_credentialsL_renderL {u : URLParts} (h : WF u) :
    strip_url_credentialsL (renderL u) = .ok (renderL (clearCredentials u)) := by
  have hport := h.2.2.2.2.2.2.2.2.2.2.1
  rw [strip_url_credentialsL, urlparseL_renderL h]
  show (Except.ok _).bind _ = _
  rw [Except.bind]
  simp only []
  rw [hostnameOf_renderNetloc h, portOf_renderNetloc h]
  show (Except.ok u.port).bind _ = _
  rw [Except.bind]
  simp only []
  have hnetclear : renderNetloc (clearCredentials u)
      = u.host.data ++
        (match u.port with | none => [] | some p => ':' :: natToDigitsL p) := by
    rw [renderNetloc, renderUserinfo]
    rfl
  rcases hp : u.port with _ | p
  · have hren : renderNetloc (clearCredentials u) = u.host.data := by
      rw [hnetclear, hp, List.append_nil]
    rw [show portTruthy none = false from rfl, if_neg (by simp)]
    rw [urlunparseL, if_neg (by simp)]
    rw [← hren, urlunsplitL_app h]
    rfl
  · have hpz : p ≠ 0 := by
      have := (hport p (by rw [hp]; rfl)).1
      omega
    rw [show portTruthy (some p) = (p != 0) from rfl]
    rw [if_pos (by simpa using hpz)]
    have hren : (u.host.data ++ ':' :: natToDigitsL ((some p).getD 0))
        = renderNetloc (clearCredentials u) := by
      rw [hnetclear, hp]
      rfl
    rw [hren, urlunparseL, if_neg (by simp), urlunsplitL_app h]
    rfl

/-! ### Mapper lemmas -/

theorem dictInsert_mem {d : List (String × IndexInfo)} {k : String} {v : IndexInfo}
    {kv : String × IndexInfo} (h : kv ∈ dictInsert d k v) :
    kv = (k, v) ∨ kv ∈ d := by
  rw [dictInsert] at h
  split at h
  · rcases List.mem_map.mp h with ⟨a, ha, hfa⟩
    by_cases hk : a.1 = k
    · rw [if_pos hk] at hfa
      exact Or.inl hfa.symm
    · rw [if_neg hk] at hfa
      exact Or.inr (hfa ▸ ha)
  · rcases List.mem_append.mp h with h | h
    · exact Or.inr h
    · exact Or.inl (List.mem_singleton.mp h)

theorem processSection_cons (st : List String × List (String × IndexInfo))
    (q : String × VersionSpec) (rest : List (String × VersionSpec)) :
    processSection st (q :: rest) = processSection (processEntry st q) rest :=
  List.foldl_cons _ _

theorem processEntry_emit_mono (st : List String × List (String × IndexInfo))
    (q : String × VersionSpec) {x : String} (hx : x ∈ st.1) :
    x ∈ (processEntry st q).1 := by
  rcases q with ⟨pkg, spec⟩
  rcases spec with v | t | _
  · rw [processEntry]
    by_cases hv : v = "*" <;> simp [hv, hx]
  · rw [processEntry]
    simp [hx]
  · exact hx

theorem processSection_emit_mono
    (entries : List (String × VersionSpec))
    (st : List String × List (String × IndexInfo)) {x : String}
    (hx : x ∈ st.1) : x ∈ (processSection st entries).1 := by
  induction entries generalizing st with
  | nil => exact hx
  | cons q rest ih =>
    rw [processSection_cons]
    exact ih _ (processEntry_emit_mono st q hx)

theorem processSection_emit_of_mem
    (entries : List (String × VersionSpec))
    (st : List String × List (String × IndexInfo))
    {pkg : String} {t : VersionTable} (hm : (pkg, VersionSpec.table t) ∈ entries) :
    dump_custom_version pkg t ∈ (processSection st entries).1 := by
  induction entries generalizing st with
  | nil => cases hm
  | cons q rest ih =>
    rw [processSection_cons]
    rcases List.mem_cons.mp hm with rfl | hm
    · refine processSection_emit_mono rest _ ?_
      rw [processEntry]
      simp
    · exact ih _ hm

theorem processSection_reg_of_mem
    (entries : List (String × VersionSpec))
    (st : List String × List (String × IndexInfo))
    {pkg : String} {info : IndexInfo}
    (hm : (pkg, info) ∈ (processSection st entries).2) :
    (pkg, info) ∈ st.2 ∨
      ∃ t : VersionTable, (pkg, VersionSpec.table t) ∈ entries ∧
        t.index = some info.index := by
  induction entries generalizing st with
  | nil => exact Or.inl hm
  | cons q rest ih =>
    rw [processSection_cons] at hm
    rcases ih _ hm with hst | ⟨t, htm, hti⟩
    · rcases q with ⟨qp, qs⟩
      rcases qs with v | t | _
      · rw [processEntry] at hst
        by_cases hv : v = "*" <;> simp [hv] at hst <;> exact Or.inl hst
      · rw [processEntry] at hst
        rcases hti : t.index with _ | i
        · simp only [hti] at hst
          exact Or.inl hst
        · simp only [hti] at hst
          rcases dictInsert_mem hst with he | hst
          · rcases Prod.mk.injEq .. ▸ he with ⟨h1, h2⟩
            subst h1
            exact Or.inr ⟨t, by simp, by rw [hti, h2]⟩
          · exact Or.inl hst
      · exact Or.inl hst
    · exact Or.inr ⟨t, List.mem_cons_of_mem _ htm, hti⟩

theorem except_bind_ok {α β : Type} (a : α) (f : α → Except String β) :
    (Except.ok a : Except String α).bind f = f a := rfl

theorem except_bind_error {α β : Type} (e : String) (f : α → Except String β) :
    (Except.error e : Except String α).bind f = Except.error e := rfl

/-- Inversion of a successful conversion: the shape of the output fields. -/
theorem convert_ok_shape {data : PipfileData} {n v s p : String} {out : Pyproject}
    (hok : convert_pipfile_to_pyproject data n v s p = .ok out) :
    out.project.dependencies
        = (processSection ([], []) (data.packages.getD [])).1 ∧
    out.project.devDependencies = none ∧
    out.toolUv.devDependencies
        = (processSection ([], (processSection ([], []) (data.packages.getD [])).2)
            (data.devPackages.getD [])).1 ∧
    out.toolUv.sources
        = ((processSection ([], (processSection ([], []) (data.packages.getD [])).2)
            (data.devPackages.getD [])).2).map
            (fun kv => (kv.1, (⟨replaceDash kv.2.index⟩ : IndexInfo))) := by
  rw [convert_pipfile_to_pyproject] at hok
  rcases hI : convertIndex data.source with e | idx
  · rw [hI, except_bind_error] at hok
    cases hok
  · rw [hI, except_bind_ok] at hok
    simp only [Except.ok.injEq] at hok
    rw [← hok]
    exact ⟨rfl, rfl, rfl, rfl⟩

/-! ### Rewriter lemmas -/

theorem matchSourcesHeader_none_of_index {s : List Char}
    (h : startsWithL indexPfx s = true) : matchSourcesHeader s = none := by
  obtain ⟨r, rfl⟩ := (startsWithL_iff _ _).mp h
  cases hsw : startsWithL sourcesHeaderPfx (indexPfx ++ r) with
  | false =>
    rw [matchSourcesHeader, hsw]
    simp
  | true =>
    obtain ⟨r2, he⟩ := (startsWithL_iff _ _).mp hsw
    have h1 : (indexPfx ++ r).head? = some 'i' := rfl
    have h2 : (sourcesHeaderPfx ++ r2).head? = some '[' := rfl
    rw [he, h2] at h1
    cases h1

theorem transformStep_header {st : Option String} {line : String} {pkg : List Char}
    (h : matchSourcesHeader (stripL line.data) = some pkg) :
    transformStep st line = some ("[tool.uv.sources]", some (String.mk pkg)) := by
  simp only [transformStep.eq_def, h]

theorem transformStep_passthrough {st : Option String} {line : String}
    (hnh : matchSourcesHeader (stripL line.data) = none)
    (hns : startsWithL indexPfx (stripL line.data) = false) :
    transformStep st line = some (String.mk (rstripL line.data), st) := by
  simp [transformStep.eq_def, hnh, hns]

theorem transformStep_index {pkg : String} {line : String} {v : List Char}
    (hpkg : pkg ≠ "")
    (hidx : startsWithL indexPfx (stripL line.data) = true)
    (hv : extractQuoted (stripL line.data) = some v) :
    transformStep (some pkg) line
      = some (pkg ++ " = \x7bindex = \"" ++ String.mk v ++ "\"\x7d", none) := by
  simp only [transformStep.eq_def, matchSourcesHeader_none_of_index hidx, hidx, hv,
    Option.getD_some]
  simp [hpkg]

theorem transformLinesFrom_cons (st : Option String) (line : String)
    (rest : List String) :
    transformLinesFrom st (line :: rest)
      = match transformStep st line with
        | none => none
        | some q =>
          match transformLinesFrom q.2 rest with
          | none => none
          | some r => some (q.1 :: r.1, r.2) := rfl

/-- Core of the awaiting-index behaviour: with a nonempty pending section,
non-header lines that do not start with `index =` pass through right-trimmed
and keep the state, and the next `index =` line with a quoted value rewrites
and clears it. -/
theorem transformLinesFrom_pending (pkg : String) (hpkg : pkg ≠ "")
    (mid : List String)
    (hmid : ∀ l ∈ mid, matchSourcesHeader (stripL l.data) = none ∧
      startsWithL indexPfx (stripL l.data) = false)
    (idx : String) (v : List Char)
    (hidx : startsWithL indexPfx (stripL idx.data) = true)
    (hv : extractQuoted (stripL idx.data) = some v)
    (rest : List String) :
    transformLinesFrom (some pkg) (mid ++ idx :: rest)
      = (transformLinesFrom none rest).map (fun r =>
          (mid.map (fun l => String.mk (rstripL l.data)) ++
            (pkg ++ " = \x7bindex = \"" ++ String.mk v ++ "\"\x7d") :: r.1, r.2)) := by
  induction mid with
  | nil =>
    rw [List.nil_append, transformLinesFrom_cons, transformStep_index hpkg hidx hv]
    rcases hres : transformLinesFrom none rest with _ | r <;> simp [hres]
  | cons l mid ih =>
    have hl := hmid l (by simp)
    rw [List.cons_append, transformLinesFrom_cons,
      transformStep_passthrough hl.1 hl.2]
    simp only [ih (fun x hx => hmid x (by simp [hx]))]
    rcases hres : transformLinesFrom none rest with _ | r <;> simp [hres]

/-! ## Claim theorems -/

/-- Claim C1: the specification demands the replacement header
`[tool.uv.sources]` be emitted exactly once before a contiguous run of
matched blocks, and on the spec's own scenario the output should be
`["[tool.uv.sources]", "foo = \x7bindex = \"bar\"\x7d",
"baz = \x7bindex = \"qux\"\x7d"]`.  The code instead re-emits the header for
every matched header line: on that scenario it appears twice, producing
duplicate-table TOML (which the spec itself calls invalid). -/
theorem transform_file_reemits_header :
    transform_file ["[tool.uv.sources.foo]", "index = \"bar\"",
        "[tool.uv.sources.baz]", "index = \"qux\""]
      = some ["[tool.uv.sources]", "foo = \x7bindex = \"bar\"\x7d",
          "[tool.uv.sources]", "baz = \x7bindex = \"qux\"\x7d"] ∧
    (["[tool.uv.sources]", "foo = \x7bindex = \"bar\"\x7d",
        "[tool.uv.sources]", "baz = \x7bindex = \"qux\"\x7d"].count
      "[tool.uv.sources]") = 2 := by
  exact ⟨by rfl, by rfl⟩

/-- Claim C2 (counterexample): `strip_url_credentials` is not a no-op on
credential-free URLs (the host is lower-cased on reparse), and an explicit
port `0` is dropped rather than preserved — refuting the claim as stated. -/
theorem strip_url_credentials_not_verbatim :
    strip_url_credentials "http://Example.com/a" = .ok "http://example.com/a" ∧
    ("http://example.com/a" : String) ≠ "http://Example.com/a" ∧
    strip_url_credentials "http://user:pass@h:0/p" = .ok "http://h/p" := by
  refine ⟨by rfl, by decide, by rfl⟩

/-- Claim C2 (amended): for every well-formed URL
`scheme://[user[:password]@]host[:port]path[?query][#fragment]` (lower-case
scheme and host, port in `1..65535`, no separator characters inside
components), `strip_url_credentials` returns exactly the same URL with the
userinfo removed and every other component rendered verbatim; with no
credentials it is the identity. -/
theorem strip_url_credentials_wf (u : URLParts) (h : WF u) :
    strip_url_credentials (renderURL u) = .ok (renderURL (clearCredentials u)) ∧
    (u.username = none → u.password = none →
      strip_url_credentials (renderURL u) = .ok (renderURL u)) := by
  have hmain : strip_url_credentials (renderURL u)
      = .ok (renderURL (clearCredentials u)) := by
    rw [strip_url_credentials, renderURL]
    have hdata : (String.mk (renderL u)).data = renderL u := rfl
    rw [hdata, strip_url_credentialsL_renderL h]
    rfl
  refine ⟨hmain, fun hu hp => ?_⟩
  have hcc : clearCredentials u = u := by
    cases u with
    | mk sc un pw ho po pa q f =>
      obtain rfl : un = none := hu
      obtain rfl : pw = none := hp
      rfl
  rw [hmain, hcc]

/-- Witness for the amended C2 theorem at a concrete URL with username,
password, port, path and query. -/
theorem strip_url_credentials_wf_witness :
    WF ⟨"https", some "user", some "pass", "example.com", some 8080, "/simple",
        some "a=b", some "frag"⟩ ∧
    (strip_url_credentials (renderURL ⟨"https", some "user", some "pass",
          "example.com", some 8080, "/simple", some "a=b", some "frag"⟩)
        = .ok (renderURL (clearCredentials ⟨"https", some "user", some "pass",
          "example.com", some 8080, "/simple", some "a=b", some "frag"⟩)) ∧
      ((⟨"https", some "user", some "pass", "example.com", some 8080, "/simple",
          some "a=b", some "frag"⟩ : URLParts).username = none →
        (⟨"https", some "user", some "pass", "example.com", some 8080, "/simple",
          some "a=b", some "frag"⟩ : URLParts).password = none →
        strip_url_credentials (renderURL ⟨"https", some "user", some "pass",
            "example.com", some 8080, "/simple", some "a=b", some "frag"⟩)
          = .ok (renderURL ⟨"https", some "user", some "pass", "example.com",
            some 8080, "/simple", some "a=b", some "frag"⟩))) :=
  ⟨by decide, strip_url_credentials_wf _ (by decide)⟩

/-- Claim C3: the spec requires a version spec that is neither a string nor
a table to be rejected with a fatal error; the `isinstance` chain has no
`else` branch, so the code silently drops the entry instead — the conversion
succeeds with the package omitted. -/
theorem convert_silently_drops_malformed_spec :
    convert_pipfile_to_pyproject ⟨none, some [("p", .other)], none⟩ "n" "v" "d" "3.10"
      = .ok sampleEmptyPyproject ∧
    sampleEmptyPyproject.project.dependencies = [] := by
  exact ⟨rfl, rfl⟩

/-- Claim C4: the full pipeline (mapper, serialisation, rewriter) is a pure
function of its input: two runs on equal inputs produce identical output. -/
theorem pipeline_deterministic (d₁ d₂ : PipfileData)
    (n₁ v₁ s₁ p₁ n₂ v₂ s₂ p₂ : String)
    (hd : d₁ = d₂) (hn : n₁ = n₂) (hv : v₁ = v₂) (hs : s₁ = s₂) (hp : p₁ = p₂) :
    runPipeline d₁ n₁ v₁ s₁ p₁ = runPipeline d₂ n₂ v₂ s₂ p₂ := by
  rw [hd, hn, hv, hs, hp]

/-- Witness for the determinism theorem at a concrete manifest. -/
theorem pipeline_deterministic_witness :
    sampleIndexedManifest = sampleIndexedManifest ∧
    runPipeline sampleIndexedManifest "n" "v" "d" "3.10"
      = runPipeline sampleIndexedManifest "n" "v" "d" "3.10" :=
  ⟨rfl, pipeline_deterministic sampleIndexedManifest sampleIndexedManifest
    "n" "v" "d" "3.10" "n" "v" "d" "3.10" rfl rfl rfl rfl rfl⟩

/-- Claim C5: every package keyed in `tool.uv.sources` stems from a
dependency entry carrying an explicit `index` field, its rendered specifier
(from the same pass) is in the dependencies or dev-dependencies list, and
the recorded index name is underscore-normalised; on the spec's example
`{version := "==1.0", index := "my-index"}` the mapper emits `"pkg==1.0"`
and registers `sources["pkg"] = {index := "my_index"}`. -/
theorem sources_invariant (data : PipfileData) (n v s p : String) (out : Pyproject)
    (hok : convert_pipfile_to_pyproject data n v s p = .ok out) :
    (∀ pkg info, (pkg, info) ∈ out.toolUv.sources →
      ∃ t : VersionTable, t.index.isSome ∧
        (pkg, VersionSpec.table t)
          ∈ (data.packages.getD [] ++ data.devPackages.getD []) ∧
        info.index = replaceDash (t.index.getD "") ∧
        (dump_custom_version pkg t ∈ out.project.dependencies ∨
          dump_custom_version pkg t ∈ out.toolUv.devDependencies)) ∧
    convert_pipfile_to_pyproject sampleIndexedManifest "n" "v" "d" "3.10"
      = .ok sampleIndexedPyproject := by
  obtain ⟨hdep, hdev0, hdevd, hsrc⟩ := convert_ok_shape hok
  refine ⟨?_, by rfl⟩
  intro pkg info hmem
  rw [hsrc] at hmem
  rcases List.mem_map.mp hmem with ⟨kv0, hkv0, heq⟩
  simp only [Prod.mk.injEq] at heq
  obtain ⟨h1, h2⟩ := heq
  subst h1
  subst h2
  rcases processSection_reg_of_mem _ _ hkv0 with hdep2 | ⟨t, htm, hti⟩
  · rcases processSection_reg_of_mem _ _ hdep2 with habs | ⟨t, htm, hti⟩
    · cases habs
    · exact ⟨t, by rw [hti]; rfl, List.mem_append.mpr (Or.inl htm),
        by rw [hti]; rfl,
        Or.inl (by rw [hdep]; exact processSection_emit_of_mem _ _ htm)⟩
  · exact ⟨t, by rw [hti]; rfl, List.mem_append.mpr (Or.inr htm),
      by rw [hti]; rfl,
      Or.inr (by rw [hdevd]; exact processSection_emit_of_mem _ _ htm)⟩

/-- Witness for the sources invariant at the sample indexed manifest. -/
theorem sources_invariant_witness :
    convert_pipfile_to_pyproject sampleIndexedManifest "n" "v" "d" "3.10"
        = .ok sampleIndexedPyproject ∧
    ((∀ pkg info, (pkg, info) ∈ sampleIndexedPyproject.toolUv.sources →
      ∃ t : VersionTable, t.index.isSome ∧
        (pkg, VersionSpec.table t)
          ∈ (sampleIndexedManifest.packages.getD []
              ++ sampleIndexedManifest.devPackages.getD []) ∧
        info.index = replaceDash (t.index.getD "") ∧
        (dump_custom_version pkg t ∈ sampleIndexedPyproject.project.dependencies ∨
          dump_custom_version pkg t ∈ sampleIndexedPyproject.toolUv.devDependencies)) ∧
     convert_pipfile_to_pyproject sampleIndexedManifest "n" "v" "d" "3.10"
        = .ok sampleIndexedPyproject) :=
  ⟨by rfl, sources_invariant sampleIndexedManifest "n" "v" "d" "3.10"
    sampleIndexedPyproject (by rfl)⟩

/-- Claim C6: with a `git` field, the renderer returns
`<package> @ <git-url>@<ref>` (on the extras-rewritten name), `ref`
defaulting to `"main"`, and any `version` field is ignored; concretely
`{git := "https://x/y.git"}` renders to `"pkg @ https://x/y.git@main"`. -/
theorem dump_custom_version_git (package : String) (t : VersionTable) (g : String)
    (hg : t.git = some g) :
    dump_custom_version package t
      = (match t.extras with
          | some extras => package ++ "[" ++ String.intercalate "," extras ++ "]"
          | none => package) ++ " @ " ++ g ++ "@" ++ t.ref.getD "main" ∧
    (∀ v', dump_custom_version package { t with version := v' }
        = dump_custom_version package t) ∧
    dump_custom_version "pkg" ⟨none, some "https://x/y.git", none, none, none⟩
      = "pkg @ https://x/y.git@main" := by
  refine ⟨?_, ?_, rfl⟩
  · rcases he : t.extras with _ | ex <;> simp [dump_custom_version, hg, he]
  · intro v'
    rcases he : t.extras with _ | ex <;> simp [dump_custom_version, hg, he]

/-- Witness for the git-priority theorem at a fully populated spec. -/
theorem dump_custom_version_git_witness :
    (⟨some ["x"], some "https://g/r.git", some "dev", some "==9", some "idx"⟩
        : VersionTable).git = some "https://g/r.git" ∧
    (dump_custom_version "pkg"
        ⟨some ["x"], some "https://g/r.git", some "dev", some "==9", some "idx"⟩
      = (match (⟨some ["x"], some "https://g/r.git", some "dev", some "==9",
            some "idx"⟩ : VersionTable).extras with
          | some extras => "pkg" ++ "[" ++ String.intercalate "," extras ++ "]"
          | none => "pkg") ++ " @ " ++ "https://g/r.git" ++ "@" ++
          (⟨some ["x"], some "https://g/r.git", some "dev", some "==9",
            some "idx"⟩ : VersionTable).ref.getD "main" ∧
      (∀ v', dump_custom_version "pkg"
          { (⟨some ["x"], some "https://g/r.git", some "dev", some "==9",
              some "idx"⟩ : VersionTable) with version := v' }
        = dump_custom_version "pkg"
            ⟨some ["x"], some "https://g/r.git", some "dev", some "==9",
              some "idx"⟩) ∧
      dump_custom_version "pkg" ⟨none, some "https://x/y.git", none, none, none⟩
        = "pkg @ https://x/y.git@main") :=
  ⟨rfl, dump_custom_version_git "pkg"
    ⟨some ["x"], some "https://g/r.git", some "dev", some "==9", some "idx"⟩
    "https://g/r.git" rfl⟩

/-- Claim C7: an `extras` list rewrites the package name to
`name[e1,…,en]` before the remaining rules run, so rendering `t` equals
rendering `{t with extras := none}` on the rewritten name; concretely
`{version := "==1.2.3", extras := ["a","b"]}` renders to
`"pkg[a,b]==1.2.3"`. -/
theorem dump_custom_version_extras (package : String) (t : VersionTable)
    (ex : List String) (he : t.extras = some ex) :
    dump_custom_version package t
      = dump_custom_version
          (package ++ "[" ++ String.intercalate "," ex ++ "]")
          { t with extras := none } ∧
    dump_custom_version "pkg" ⟨some ["a", "b"], none, none, some "==1.2.3", none⟩
      = "pkg[a,b]==1.2.3" := by
  refine ⟨?_, rfl⟩
  simp [dump_custom_version, he]

/-- Witness for the extras-rewrite theorem. -/
theorem dump_custom_version_extras_witness :
    (⟨some ["a", "b"], none, none, some "==1.2.3", none⟩
        : VersionTable).extras = some ["a", "b"] ∧
    (dump_custom_version "pkg"
        ⟨some ["a", "b"], none, none, some "==1.2.3", none⟩
      = dump_custom_version ("pkg" ++ "[" ++ String.intercalate "," ["a", "b"] ++ "]")
          { (⟨some ["a", "b"], none, none, some "==1.2.3", none⟩
              : VersionTable) with extras := none } ∧
      dump_custom_version "pkg" ⟨some ["a", "b"], none, none, some "==1.2.3", none⟩
        = "pkg[a,b]==1.2.3") :=
  ⟨rfl, dump_custom_version_extras "pkg"
    ⟨some ["a", "b"], none, none, some "==1.2.3", none⟩ ["a", "b"] rfl⟩

/-- Claim C8: a literal `"*"` spec renders to the bare package name, and any
other literal string is concatenated to the name with no separator (lines
100–104, the string branch of the dependency loop). -/
theorem string_spec_rendering (package v : String)
    (st : List String × List (String × IndexInfo)) (hv : v ≠ "*") :
    processSection st [(package, .str "*")] = (st.1 ++ [package], st.2) ∧
    processSection st [(package, .str v)] = (st.1 ++ [package ++ v], st.2) := by
  constructor
  · rfl
  · rw [processSection, List.foldl_cons, List.foldl_nil, processEntry]
    simp [hv]

/-- Witness for the string-spec theorem. -/
theorem string_spec_rendering_witness :
    (">=1" : String) ≠ "*" ∧
    (processSection (["a"], []) [("p", .str "*")] = (["a"] ++ ["p"], []) ∧
      processSection (["a"], []) [("p", .str ">=1")] = (["a"] ++ ["p" ++ ">=1"], [])) :=
  ⟨by decide, string_spec_rendering "p" ">=1" (["a"], []) (by decide)⟩

/-- Claim C9: in the final structure the staged dev-dependency list lives
under `tool.uv` and the `dev-dependencies` key is gone from `[project]`. -/
theorem dev_dependencies_relocated (data : PipfileData) (n v s p : String)
    (out : Pyproject)
    (hok : convert_pipfile_to_pyproject data n v s p = .ok out) :
    out.project.devDependencies = none ∧
    out.toolUv.devDependencies
      = (processSection ([], (processSection ([], []) (data.packages.getD [])).2)
          (data.devPackages.getD [])).1 :=
  ⟨(convert_ok_shape hok).2.1, (convert_ok_shape hok).2.2.1⟩

/-- Witness for the dev-dependency relocation at the sample dev manifest. -/
theorem dev_dependencies_relocated_witness :
    convert_pipfile_to_pyproject sampleDevManifest "n" "v" "d" "3.10"
      = .ok sampleDevPyproject ∧
    (sampleDevPyproject.project.devDependencies = none ∧
      sampleDevPyproject.toolUv.devDependencies
        = (processSection
            ([], (processSection ([], []) (sampleDevManifest.packages.getD [])).2)
            (sampleDevManifest.devPackages.getD [])).1) :=
  ⟨by rfl, dev_dependencies_relocated sampleDevManifest "n" "v" "d" "3.10"
    sampleDevPyproject (by rfl)⟩

/-- Claim C10 (counterexample): the implicit claim quantifies over every
matched header `[tool.uv.sources.<pkg>]`, but the empty group is matched and
stored, and the Python truthiness test `current_section and …` then never
fires: the following `index = "v"` line passes through unchanged instead of
being rewritten to ` = \x7bindex = \"v\"\x7d`. -/
theorem transform_file_empty_section_counterexample :
    transform_file ["[tool.uv.sources.]", "index = \"v\""]
      = some ["[tool.uv.sources]", "index = \"v\""] ∧
    ("index = \"v\"" : String) ≠ " = \x7bindex = \"v\"\x7d" := by
  refine ⟨by rfl, by decide⟩

/-- Claim C10 (amended): after a header with nonempty `<pkg>` is matched,
the awaiting-index state persists across lines that neither match the header
pattern nor start with `index =` (each passing through right-trimmed), the
first later `index =` line containing a quoted value is rewritten to
`<pkg> = \x7bindex = \"<value>\"\x7d` and clears the state, and the
replacement header `[tool.uv.sources]` is emitted anew for every matched
header line, whatever the current state. -/
theorem transform_pending_state (pkg : String) (hpkg : pkg ≠ "")
    (mid : List String)
    (hmid : ∀ l ∈ mid, matchSourcesHeader (stripL l.data) = none ∧
      startsWithL indexPfx (stripL l.data) = false)
    (idx : String) (v : List Char)
    (hidx : startsWithL indexPfx (stripL idx.data) = true)
    (hv : extractQuoted (stripL idx.data) = some v)
    (rest : List String) :
    transformLinesFrom (some pkg) (mid ++ idx :: rest)
      = (transformLinesFrom none rest).map (fun r =>
          (mid.map (fun l => String.mk (rstripL l.data)) ++
            (pkg ++ " = \x7bindex = \"" ++ String.mk v ++ "\"\x7d") :: r.1, r.2)) ∧
    (∀ st line pkgGroup, matchSourcesHeader (stripL line.data) = some pkgGroup →
      transformStep st line = some ("[tool.uv.sources]", some (String.mk pkgGroup))) :=
  ⟨transformLinesFrom_pending pkg hpkg mid hmid idx v hidx hv rest,
    fun _ _ _ h => transformStep_header h⟩

/-- Witness for the pending-state theorem at concrete lines. -/
theorem transform_pending_state_witness :
    ("foo" : String) ≠ "" ∧
    (∀ l ∈ ["x = 1"], matchSourcesHeader (stripL l.data) = none ∧
      startsWithL indexPfx (stripL l.data) = false) ∧
    startsWithL indexPfx (stripL ("index = \"bar\"" : String).data) = true ∧
    extractQuoted (stripL ("index = \"bar\"" : String).data) = some "bar".data ∧
    transformLinesFrom (some "foo") (["x = 1"] ++ "index = \"bar\"" :: ["tail"])
      = (transformLinesFrom none ["tail"]).map (fun r =>
          (["x = 1"].map (fun l => String.mk (rstripL l.data)) ++
            ("foo" ++ " = \x7bindex = \"" ++ String.mk "bar".data ++ "\"\x7d") :: r.1,
            r.2)) :=
  ⟨by decide, by decide, by decide, by decide,
    (transform_pending_state "foo" (by decide) ["x = 1"] (by decide)
      "index = \"bar\"" "bar".data (by decide) (by decide) ["tail"]).1⟩

end PipToUv
